import Mathlib

/-!
Verification development for the `zi.py` Chinese-character quiz.

The program's quiz engine is shallowly embedded here:
* Python floats (weights, times) are modelled as exact rationals `ℚ`;
  every constant of the program (1.5, 3.0, 0.25, 0.01, ...) is exactly
  representable.
* Console interaction is modelled by passing the typed lines and the
  measured elapsed times as explicit inputs of the turn function.
* Printing is modelled only where observable state matters (the
  `revealed` flag records whether `reveal_answer_details` was called).
-/

/-- Tunable constants of `zi.py` (lines 13-20). -/
def PENALTY_HINT : ℚ := 3/2

def PENALTY_SKIP : ℚ := 3

def PENALTY_INCORRECT : ℚ := 4

def REWARD_STREAK : ℚ := 1/4

def REWARD_TIME : ℚ := 1/2

def REWARD_CORRECT : ℚ := 1

def MAX_WEIGHT : ℚ := 10

def MIN_WEIGHT : ℚ := 1/100

/-- A quiz item of `zi.json`.  `character` is always present; the pinyin
and description fields are read with `item.get(key, default)` in the code,
so they are modelled as `Option String` (absent key = `none`).  The
`examples` list is only ever printed, so it is not modelled. -/
structure ZiItem where
  character : String
  description : Option String
  pinyin_marks : Option String
  pinyin_numbers : Option String
deriving DecidableEq

/-- A progress record, as produced by `get_default_progress_item` and
mutated by `run_quiz_for_item`. -/
structure ProgressRecord where
  character : String
  weight : ℚ
  streak : ℕ
  avg_time : ℚ
  total_time : ℚ
  attempts : ℕ
  correct : ℕ
deriving DecidableEq

/-- `get_default_progress_item` (zi.py lines 139-149). -/
def get_default_progress_item (character : String) : ProgressRecord :=
  { character := character
    weight := MAX_WEIGHT
    streak := 0
    avg_time := 0
    total_time := 0
    attempts := 0
    correct := 0 }

/-- ASCII whitespace as stripped by Python's `str.strip()`
(space, tab, newline, carriage return, vertical tab, form feed). -/
def isPySpace (c : Char) : Bool :=
  c = ' ' || c = '\t' || c = '\n' || c = '\r' || c = Char.ofNat 11 || c = Char.ofNat 12

/-- Strip leading and trailing whitespace from a character list. -/
def stripChars (l : List Char) : List Char :=
  ((l.dropWhile isPySpace).reverse.dropWhile isPySpace).reverse

/-- Python `str.strip()`. -/
def pyStrip (s : String) : String :=
  String.mk (stripChars s.toList)

/-- Python `str.lower()` (ASCII case folding, enough for the inputs the
program compares: pinyin and the reserved tokens). -/
def pyLower (s : String) : String :=
  String.mk (s.toList.map Char.toLower)

/-- `get_quiz_item_data` (zi.py lines 298-310): the accepted-answer list
(both pinyin forms, lower-cased, missing fields defaulting to "") and the
hint list (the description). -/
def get_quiz_item_data (item : ZiItem) : List String × List String :=
  ([pyLower (item.pinyin_marks.getD ""), pyLower (item.pinyin_numbers.getD "")],
   [item.description.getD "No description available."])

/-- `check_answer` (zi.py lines 326-328): case-insensitive membership in
the accepted-answer list. -/
def check_answer (user_input : String) (answer_list : List String) : Bool :=
  answer_list.contains (pyLower user_input)

/-- Outcome status returned by `run_quiz_for_item` (a string in Python). -/
inductive TurnResult where
  | correct
  | incorrect
  | skipped
  | quit
deriving DecidableEq

/-- The console input of one turn: the first typed line and its measured
elapsed time, plus the line typed at the post-hint re-prompt and its
elapsed time (used only when the first line is the hint token). -/
structure TurnInput where
  inpt : String
  elapsed : ℚ
  hintInpt : String
  hintElapsed : ℚ
deriving DecidableEq

/-- What one call of `run_quiz_for_item` produces: the status string, the
updated progress record, and whether `reveal_answer_details` was called. -/
structure TurnOutcome where
  result : TurnResult
  prog : ProgressRecord
  revealed : Bool
deriving DecidableEq

/-- The tail of `run_quiz_for_item` (zi.py lines 393-422), reached with
the effective answer text and accumulated elapsed time once the special
tokens have been handled: update time stats, check the answer, apply
reward or penalty, then recompute `avg_time`. -/
def answerPhase (item : ZiItem) (prog : ProgressRecord) (inpt : String) (elapsed : ℚ) :
    TurnOutcome :=
  let prog1 := { prog with attempts := prog.attempts + 1, total_time := prog.total_time + elapsed }
  if check_answer inpt (get_quiz_item_data item).1 then
    let prog2 := { prog1 with correct := prog1.correct + 1, streak := prog1.streak + 1 }
    let reward0 := REWARD_CORRECT + REWARD_STREAK * (prog2.streak : ℚ)
    let reward :=
      if 0 < prog2.avg_time ∧ elapsed < prog2.avg_time then reward0 + REWARD_TIME else reward0
    let prog3 := { prog2 with weight := max MIN_WEIGHT (prog2.weight - reward) }
    let prog4 := { prog3 with avg_time := prog3.total_time / (prog3.attempts : ℚ) }
    ⟨.correct, prog4, true⟩
  else
    let prog2 :=
      { prog1 with streak := 0, weight := min MAX_WEIGHT (prog1.weight + PENALTY_INCORRECT) }
    let prog3 := { prog2 with avg_time := prog2.total_time / (prog2.attempts : ℚ) }
    ⟨.incorrect, prog3, true⟩

/-- `run_quiz_for_item` (zi.py lines 362-427).  The typed lines are
stripped; the reserved tokens are compared lower-cased.  `-q` ends the
session with no state change; `-s` applies the skip penalty and returns;
`-h` applies the hint penalty, takes exactly one more line (which is then
treated purely as an answer) and accumulates its elapsed time; anything
else is an answer. -/
def run_quiz_for_item (item : ZiItem) (prog : ProgressRecord) (ti : TurnInput) : TurnOutcome :=
  if pyLower (pyStrip ti.inpt) = "-q" then
    ⟨.quit, prog, false⟩
  else if pyLower (pyStrip ti.inpt) = "-s" then
    ⟨.skipped,
      { prog with
          weight := min MAX_WEIGHT (prog.weight + PENALTY_SKIP)
          streak := 0
          attempts := prog.attempts + 1 },
      true⟩
  else if pyLower (pyStrip ti.inpt) = "-h" then
    answerPhase item { prog with weight := min MAX_WEIGHT (prog.weight + PENALTY_HINT) }
      (pyStrip ti.hintInpt) (ti.elapsed + ti.hintElapsed)
  else
    answerPhase item prog (pyStrip ti.inpt) ti.elapsed

/-- Iterate `run_quiz_for_item` on one record over a list of turns. -/
def runTurns (item : ZiItem) (prog : ProgressRecord) (tis : List TurnInput) : ProgressRecord :=
  tis.foldl (fun p ti => (run_quiz_for_item item p ti).prog) prog

/-- Cumulative weight before index `i`: the sum of the first `i` weights.
Models the `cum_weights` list `random.choices` builds internally. -/
def cumAt (ws : List ℚ) (i : ℕ) : ℚ :=
  (ws.take i).sum

/-- The index `random.choices(indices, weights=ws, k=1)[0]` returns when
the uniform draw `random() * total` comes out as `x`: CPython computes
`bisect_right(cum_weights, x)` — the first index whose cumulative weight
exceeds `x`.  (For `0 ≤ x < total`, which `random()` guarantees, the
`hi = n-1` cap of `bisect` never binds.) -/
def select : List ℚ → ℚ → ℕ
  | [], _ => 0
  | w :: ws, x => if x < w then 0 else select ws (x - w) + 1

/-- `get_next_index` (zi.py lines 282-296).  In random mode the weighted
draw is used (`x` is the value of `random() * total`); in sequential mode
the cursor is returned and advanced modulo `data_len`.  Returns the
selected index and the new cursor. -/
def get_next_index (random_mode : Bool) (data_len : ℕ) (progress : List ProgressRecord)
    (x : ℚ) (cursor : ℕ) : ℕ × ℕ :=
  if random_mode then
    (select (progress.map (fun p => p.weight)) x, cursor)
  else
    (cursor, (cursor + 1) % data_len)

/-- The sequential cursor after `k` draws, starting from the reset value 0
(`g_in_order_index = 0` at session start, zi.py lines 508-509). -/
def seqCursor (n : ℕ) : ℕ → ℕ
  | 0 => 0
  | k + 1 => (get_next_index false n [] 0 (seqCursor n k)).2

/-- The index produced by the `k`-th sequential draw of a session. -/
def seqDraw (n : ℕ) (k : ℕ) : ℕ :=
  (get_next_index false n [] 0 (seqCursor n k)).1

/-- Lookup in the dict comprehension `{p['character']: p for p in progress_data}`:
the last record with the given character wins, as for a Python dict. -/
def progressLookup (ps : List ProgressRecord) (c : String) : Option ProgressRecord :=
  ps.foldl (fun acc p => if p.character = c then some p else acc) none

/-- The record the sync step pairs with one data item: the stored record
for its character if any, else a fresh default record. -/
def syncRecordFor (ps : List ProgressRecord) (item : ZiItem) : ProgressRecord :=
  match progressLookup ps item.character with
  | some p => p
  | none => get_default_progress_item item.character

/-- The sync logic of `load_and_sync_progress` (zi.py lines 151-193),
with the already-loaded stored progress passed in: pass 1 walks the data
list keeping existing records and creating defaults; pass 2 filters out
records whose character is not in the data set. -/
def load_and_sync_progress (data : List ZiItem) (progress_data : List ProgressRecord) :
    List ProgressRecord :=
  (data.map (syncRecordFor progress_data)).filter
    (fun p => data.any (fun item => item.character = p.character))

/-! ## Characterizations of the turn function -/

lemma answerPhase_correct_eq (item : ZiItem) (prog : ProgressRecord) (inpt : String)
    (elapsed : ℚ) (hc : check_answer inpt (get_quiz_item_data item).1 = true) :
    answerPhase item prog inpt elapsed =
      ⟨.correct,
        { character := prog.character
          weight := max MIN_WEIGHT (prog.weight -
            (if 0 < prog.avg_time ∧ elapsed < prog.avg_time
             then REWARD_CORRECT + REWARD_STREAK * ((prog.streak : ℚ) + 1) + REWARD_TIME
             else REWARD_CORRECT + REWARD_STREAK * ((prog.streak : ℚ) + 1)))
          streak := prog.streak + 1
          avg_time := (prog.total_time + elapsed) / ((prog.attempts : ℚ) + 1)
          total_time := prog.total_time + elapsed
          attempts := prog.attempts + 1
          correct := prog.correct + 1 },
        true⟩ := by
  unfold answerPhase
  rw [hc]
  push_cast
  simp

lemma answerPhase_incorrect_eq (item : ZiItem) (prog : ProgressRecord) (inpt : String)
    (elapsed : ℚ) (hc : check_answer inpt (get_quiz_item_data item).1 = false) :
    answerPhase item prog inpt elapsed =
      ⟨.incorrect,
        { character := prog.character
          weight := min MAX_WEIGHT (prog.weight + PENALTY_INCORRECT)
          streak := 0
          avg_time := (prog.total_time + elapsed) / ((prog.attempts : ℚ) + 1)
          total_time := prog.total_time + elapsed
          attempts := prog.attempts + 1
          correct := prog.correct },
        true⟩ := by
  unfold answerPhase
  rw [hc]
  push_cast
  simp

lemma run_quit_eq (item : ZiItem) (prog : ProgressRecord) (ti : TurnInput)
    (h : pyLower (pyStrip ti.inpt) = "-q") :
    run_quiz_for_item item prog ti = ⟨.quit, prog, false⟩ := by
  unfold run_quiz_for_item
  rw [h]
  simp

lemma run_skip_eq (item : ZiItem) (prog : ProgressRecord) (ti : TurnInput)
    (h : pyLower (pyStrip ti.inpt) = "-s") :
    run_quiz_for_item item prog ti =
      ⟨.skipped,
        { prog with
            weight := min MAX_WEIGHT (prog.weight + PENALTY_SKIP)
            streak := 0
            attempts := prog.attempts + 1 },
        true⟩ := by
  unfold run_quiz_for_item
  rw [h]
  simp

lemma run_hint_eq (item : ZiItem) (prog : ProgressRecord) (ti : TurnInput)
    (h : pyLower (pyStrip ti.inpt) = "-h") :
    run_quiz_for_item item prog ti =
      answerPhase item { prog with weight := min MAX_WEIGHT (prog.weight + PENALTY_HINT) }
        (pyStrip ti.hintInpt) (ti.elapsed + ti.hintElapsed) := by
  unfold run_quiz_for_item
  rw [h]
  simp

lemma run_answer_eq (item : ZiItem) (prog : ProgressRecord) (ti : TurnInput)
    (hq : ¬ pyLower (pyStrip ti.inpt) = "-q") (hs : ¬ pyLower (pyStrip ti.inpt) = "-s")
    (hh : ¬ pyLower (pyStrip ti.inpt) = "-h") :
    run_quiz_for_item item prog ti = answerPhase item prog (pyStrip ti.inpt) ti.elapsed := by
  unfold run_quiz_for_item
  rw [if_neg hq, if_neg hs, if_neg hh]

/-! ## Weight clamping helpers -/

lemma clamp_up_mem (w p : ℚ) (hp : 0 ≤ p) (h1 : MIN_WEIGHT ≤ w) :
    MIN_WEIGHT ≤ min MAX_WEIGHT (w + p) ∧ min MAX_WEIGHT (w + p) ≤ MAX_WEIGHT := by
  refine ⟨le_min (by norm_num [MIN_WEIGHT, MAX_WEIGHT]) (by linarith), min_le_left _ _⟩

lemma clamp_down_mem (w r : ℚ) (hr : 0 ≤ r) (h2 : w ≤ MAX_WEIGHT) :
    MIN_WEIGHT ≤ max MIN_WEIGHT (w - r) ∧ max MIN_WEIGHT (w - r) ≤ MAX_WEIGHT := by
  refine ⟨le_max_left _ _, max_le (by norm_num [MIN_WEIGHT, MAX_WEIGHT]) (by linarith)⟩

lemma reward_nonneg (prog : ProgressRecord) (elapsed : ℚ) :
    0 ≤ (if 0 < prog.avg_time ∧ elapsed < prog.avg_time
         then REWARD_CORRECT + REWARD_STREAK * ((prog.streak : ℚ) + 1) + REWARD_TIME
         else REWARD_CORRECT + REWARD_STREAK * ((prog.streak : ℚ) + 1)) := by
  have h : (0 : ℚ) ≤ (prog.streak : ℚ) := Nat.cast_nonneg _
  unfold REWARD_CORRECT REWARD_STREAK REWARD_TIME
  split_ifs <;> linarith

lemma answerPhase_weight_mem (item : ZiItem) (prog : ProgressRecord) (inpt : String)
    (elapsed : ℚ) (h1 : MIN_WEIGHT ≤ prog.weight) (h2 : prog.weight ≤ MAX_WEIGHT) :
    MIN_WEIGHT ≤ (answerPhase item prog inpt elapsed).prog.weight ∧
      (answerPhase item prog inpt elapsed).prog.weight ≤ MAX_WEIGHT := by
  cases hc : check_answer inpt (get_quiz_item_data item).1 with
  | true =>
    rw [answerPhase_correct_eq item prog inpt elapsed hc]
    exact clamp_down_mem prog.weight _ (reward_nonneg prog elapsed) h2
  | false =>
    rw [answerPhase_incorrect_eq item prog inpt elapsed hc]
    exact clamp_up_mem prog.weight PENALTY_INCORRECT (by norm_num [PENALTY_INCORRECT]) h1

/-- C2: for every turn outcome (quit, skip, hint, correct, incorrect), a
weight within `[MIN_WEIGHT, MAX_WEIGHT]` before the update is still within
`[MIN_WEIGHT, MAX_WEIGHT]` after it. -/
theorem weight_always_clamped (item : ZiItem) (prog : ProgressRecord) (ti : TurnInput)
    (h1 : MIN_WEIGHT ≤ prog.weight) (h2 : prog.weight ≤ MAX_WEIGHT) :
    MIN_WEIGHT ≤ (run_quiz_for_item item prog ti).prog.weight ∧
      (run_quiz_for_item item prog ti).prog.weight ≤ MAX_WEIGHT := by
  by_cases hq : pyLower (pyStrip ti.inpt) = "-q"
  · rw [run_quit_eq item prog ti hq]
    exact ⟨h1, h2⟩
  by_cases hs : pyLower (pyStrip ti.inpt) = "-s"
  · rw [run_skip_eq item prog ti hs]
    exact clamp_up_mem prog.weight PENALTY_SKIP (by norm_num [PENALTY_SKIP]) h1
  by_cases hh : pyLower (pyStrip ti.inpt) = "-h"
  · rw [run_hint_eq item prog ti hh]
    have hb := clamp_up_mem prog.weight PENALTY_HINT (by norm_num [PENALTY_HINT]) h1
    exact answerPhase_weight_mem item _ _ _ hb.1 hb.2
  · rw [run_answer_eq item prog ti hq hs hh]
    exact answerPhase_weight_mem item prog _ _ h1 h2

/-- Witness for C2 at a concrete in-range record and an incorrect answer. -/
theorem weight_always_clamped_witness :
    (MIN_WEIGHT ≤ (5 : ℚ) ∧ (5 : ℚ) ≤ MAX_WEIGHT) ∧
      (MIN_WEIGHT ≤
          (run_quiz_for_item ⟨"你", some "you", some "nǐ", some "ni3"⟩
              ⟨"你", 5, 0, 0, 0, 0, 0⟩ ⟨"xyz", 2, "", 0⟩).prog.weight ∧
        (run_quiz_for_item ⟨"你", some "you", some "nǐ", some "ni3"⟩
            ⟨"你", 5, 0, 0, 0, 0, 0⟩ ⟨"xyz", 2, "", 0⟩).prog.weight ≤ MAX_WEIGHT) :=
  ⟨⟨by norm_num [MIN_WEIGHT], by norm_num [MAX_WEIGHT]⟩,
    weight_always_clamped ⟨"你", some "you", some "nǐ", some "ni3"⟩
      ⟨"你", 5, 0, 0, 0, 0, 0⟩ ⟨"xyz", 2, "", 0⟩
      (by norm_num [MIN_WEIGHT]) (by norm_num [MAX_WEIGHT])⟩

/-- C1: on a directly typed correct answer, streak, correct and attempts
are each incremented, and the weight drops by
`REWARD_CORRECT + REWARD_STREAK * streak` (streak after the increment),
plus `REWARD_TIME` exactly when the prior `avg_time` is positive and this
turn's elapsed time beats it, clamped below at `MIN_WEIGHT`. -/
theorem correct_answer_update (item : ZiItem) (prog : ProgressRecord) (ti : TurnInput)
    (hq : ¬ pyLower (pyStrip ti.inpt) = "-q") (hs : ¬ pyLower (pyStrip ti.inpt) = "-s")
    (hh : ¬ pyLower (pyStrip ti.inpt) = "-h")
    (hc : check_answer (pyStrip ti.inpt) (get_quiz_item_data item).1 = true) :
    (run_quiz_for_item item prog ti).result = .correct ∧
      (run_quiz_for_item item prog ti).prog.streak = prog.streak + 1 ∧
      (run_quiz_for_item item prog ti).prog.correct = prog.correct + 1 ∧
      (run_quiz_for_item item prog ti).prog.attempts = prog.attempts + 1 ∧
      (run_quiz_for_item item prog ti).prog.weight =
        max MIN_WEIGHT (prog.weight -
          (if 0 < prog.avg_time ∧ ti.elapsed < prog.avg_time
           then REWARD_CORRECT + REWARD_STREAK * ((prog.streak : ℚ) + 1) + REWARD_TIME
           else REWARD_CORRECT + REWARD_STREAK * ((prog.streak : ℚ) + 1))) := by
  rw [run_answer_eq item prog ti hq hs hh, answerPhase_correct_eq item prog _ _ hc]
  exact ⟨rfl, rfl, rfl, rfl, rfl⟩

/-- Witness for C1: the spec's example, one correct answer from the
default state `weight=10, streak=0, attempts=0` gives `weight = 35/4 = 8.75`,
`streak=1`, `attempts=1`, `correct=1`. -/
theorem correct_answer_update_witness :
    ((¬ pyLower (pyStrip "ni3") = "-q") ∧ (¬ pyLower (pyStrip "ni3") = "-s") ∧
      (¬ pyLower (pyStrip "ni3") = "-h") ∧
      check_answer (pyStrip "ni3")
        (get_quiz_item_data ⟨"你", some "you", some "nǐ", some "ni3"⟩).1 = true) ∧
      (run_quiz_for_item ⟨"你", some "you", some "nǐ", some "ni3"⟩
          ⟨"你", 10, 0, 0, 0, 0, 0⟩ ⟨"ni3", 2, "", 0⟩).result = .correct ∧
      (run_quiz_for_item ⟨"你", some "you", some "nǐ", some "ni3"⟩
          ⟨"你", 10, 0, 0, 0, 0, 0⟩ ⟨"ni3", 2, "", 0⟩).prog.streak = 1 ∧
      (run_quiz_for_item ⟨"你", some "you", some "nǐ", some "ni3"⟩
          ⟨"你", 10, 0, 0, 0, 0, 0⟩ ⟨"ni3", 2, "", 0⟩).prog.correct = 1 ∧
      (run_quiz_for_item ⟨"你", some "you", some "nǐ", some "ni3"⟩
          ⟨"你", 10, 0, 0, 0, 0, 0⟩ ⟨"ni3", 2, "", 0⟩).prog.attempts = 1 ∧
      (run_quiz_for_item ⟨"你", some "you", some "nǐ", some "ni3"⟩
          ⟨"你", 10, 0, 0, 0, 0, 0⟩ ⟨"ni3", 2, "", 0⟩).prog.weight = 35 / 4 := by
  have h := correct_answer_update ⟨"你", some "you", some "nǐ", some "ni3"⟩
    ⟨"你", 10, 0, 0, 0, 0, 0⟩ ⟨"ni3", 2, "", 0⟩ (by decide) (by decide) (by decide) (by decide)
  refine ⟨⟨by decide, by decide, by decide, by decide⟩, h.1, h.2.1, h.2.2.1, h.2.2.2.1, ?_⟩
  rw [h.2.2.2.2]
  norm_num [MIN_WEIGHT, REWARD_CORRECT, REWARD_STREAK, REWARD_TIME, max_def]

/-- C8: a skipped turn clamps the weight up by `PENALTY_SKIP`, resets the
streak, increments attempts, and reveals the answer. -/
theorem skip_update (item : ZiItem) (prog : ProgressRecord) (ti : TurnInput)
    (h : pyLower (pyStrip ti.inpt) = "-s") :
    (run_quiz_for_item item prog ti).result = .skipped ∧
      (run_quiz_for_item item prog ti).prog.weight = min MAX_WEIGHT (prog.weight + PENALTY_SKIP) ∧
      (run_quiz_for_item item prog ti).prog.streak = 0 ∧
      (run_quiz_for_item item prog ti).prog.attempts = prog.attempts + 1 ∧
      (run_quiz_for_item item prog ti).revealed = true := by
  rw [run_skip_eq item prog ti h]
  exact ⟨rfl, rfl, rfl, rfl, rfl⟩

/-- Witness for C8: the spec's example, skipping from `weight = 5` gives
`weight = 8`, `streak = 0`, `attempts` incremented. -/
theorem skip_update_witness :
    (pyLower (pyStrip "-s") = "-s") ∧
      (run_quiz_for_item ⟨"你", some "you", some "nǐ", some "ni3"⟩
          ⟨"你", 5, 2, 0, 0, 4, 3⟩ ⟨"-s", 2, "", 0⟩).result = .skipped ∧
      (run_quiz_for_item ⟨"你", some "you", some "nǐ", some "ni3"⟩
          ⟨"你", 5, 2, 0, 0, 4, 3⟩ ⟨"-s", 2, "", 0⟩).prog.weight = 8 ∧
      (run_quiz_for_item ⟨"你", some "you", some "nǐ", some "ni3"⟩
          ⟨"你", 5, 2, 0, 0, 4, 3⟩ ⟨"-s", 2, "", 0⟩).prog.streak = 0 ∧
      (run_quiz_for_item ⟨"你", some "you", some "nǐ", some "ni3"⟩
          ⟨"你", 5, 2, 0, 0, 4, 3⟩ ⟨"-s", 2, "", 0⟩).prog.attempts = 5 := by
  have h := skip_update ⟨"你", some "you", some "nǐ", some "ni3"⟩
    ⟨"你", 5, 2, 0, 0, 4, 3⟩ ⟨"-s", 2, "", 0⟩ (by decide)
  refine ⟨by decide, h.1, ?_, h.2.2.1, h.2.2.2.1⟩
  rw [h.2.1]
  norm_num [MAX_WEIGHT, PENALTY_SKIP, min_def]

/-! ## Counter monotonicity -/

lemma run_counters_step (item : ZiItem) (prog : ProgressRecord) (ti : TurnInput) :
    prog.attempts ≤ (run_quiz_for_item item prog ti).prog.attempts ∧
      prog.correct ≤ (run_quiz_for_item item prog ti).prog.correct ∧
      (prog.correct ≤ prog.attempts →
        (run_quiz_for_item item prog ti).prog.correct ≤
          (run_quiz_for_item item prog ti).prog.attempts) := by
  by_cases hq : pyLower (pyStrip ti.inpt) = "-q"
  · rw [run_quit_eq item prog ti hq]
    exact ⟨le_refl _, le_refl _, fun h => h⟩
  by_cases hs : pyLower (pyStrip ti.inpt) = "-s"
  · rw [run_skip_eq item prog ti hs]
    exact ⟨Nat.le_succ _, le_refl _, fun h => h.trans (Nat.le_succ _)⟩
  by_cases hh : pyLower (pyStrip ti.inpt) = "-h"
  · rw [run_hint_eq item prog ti hh]
    cases hc : check_answer (pyStrip ti.hintInpt) (get_quiz_item_data item).1 with
    | true =>
      rw [answerPhase_correct_eq _ _ _ _ hc]
      exact ⟨Nat.le_succ _, Nat.le_succ _, fun h => Nat.succ_le_succ h⟩
    | false =>
      rw [answerPhase_incorrect_eq _ _ _ _ hc]
      exact ⟨Nat.le_succ _, le_refl _, fun h => h.trans (Nat.le_succ _)⟩
  · rw [run_answer_eq item prog ti hq hs hh]
    cases hc : check_answer (pyStrip ti.inpt) (get_quiz_item_data item).1 with
    | true =>
      rw [answerPhase_correct_eq _ _ _ _ hc]
      exact ⟨Nat.le_succ _, Nat.le_succ _, fun h => Nat.succ_le_succ h⟩
    | false =>
      rw [answerPhase_incorrect_eq _ _ _ _ hc]
      exact ⟨Nat.le_succ _, le_refl _, fun h => h.trans (Nat.le_succ _)⟩

/-- C9: over any sequence of turns, `attempts` and `correct` never
decrease, and `correct ≤ attempts` is preserved. -/
theorem counters_monotone (item : ZiItem) (prog : ProgressRecord) (tis : List TurnInput) :
    prog.attempts ≤ (runTurns item prog tis).attempts ∧
      prog.correct ≤ (runTurns item prog tis).correct ∧
      (prog.correct ≤ prog.attempts →
        (runTurns item prog tis).correct ≤ (runTurns item prog tis).attempts) := by
  induction tis generalizing prog with
  | nil => exact ⟨le_refl _, le_refl _, fun h => h⟩
  | cons ti tis ih =>
    have hstep := run_counters_step item prog ti
    have hrec := ih (run_quiz_for_item item prog ti).prog
    exact ⟨hstep.1.trans hrec.1, hstep.2.1.trans hrec.2.1, fun h => hrec.2.2 (hstep.2.2 h)⟩

/-- Witness for C9 on a concrete three-turn session starting from the
default record. -/
theorem counters_monotone_witness :
    ((get_default_progress_item "你").correct ≤ (get_default_progress_item "你").attempts) ∧
      (runTurns ⟨"你", some "you", some "nǐ", some "ni3"⟩ (get_default_progress_item "你")
            [⟨"ni3", 2, "", 0⟩, ⟨"-s", 1, "", 0⟩, ⟨"wrong", 3, "", 0⟩]).correct ≤
        (runTurns ⟨"你", some "you", some "nǐ", some "ni3"⟩ (get_default_progress_item "你")
            [⟨"ni3", 2, "", 0⟩, ⟨"-s", 1, "", 0⟩, ⟨"wrong", 3, "", 0⟩]).attempts :=
  ⟨by decide,
    (counters_monotone ⟨"你", some "you", some "nǐ", some "ni3"⟩ (get_default_progress_item "你")
        [⟨"ni3", 2, "", 0⟩, ⟨"-s", 1, "", 0⟩, ⟨"wrong", 3, "", 0⟩]).2.2 (by decide)⟩

/-! ## Time accounting (C3) -/

/-- C3 counterexample: a skipped turn with elapsed time 2 leaves
`total_time` unchanged at 0 instead of increasing it to `0 + 2` as the
claim states. -/
theorem skip_time_counterexample :
    (run_quiz_for_item ⟨"你", some "you", some "nǐ", some "ni3"⟩ ⟨"你", 5, 0, 0, 0, 0, 0⟩
        ⟨"-s", 2, "", 0⟩).result = .skipped ∧
      ¬ ((run_quiz_for_item ⟨"你", some "you", some "nǐ", some "ni3"⟩ ⟨"你", 5, 0, 0, 0, 0, 0⟩
            ⟨"-s", 2, "", 0⟩).prog.total_time = 0 + 2) := by
  rw [run_skip_eq ⟨"你", some "you", some "nǐ", some "ni3"⟩ ⟨"你", 5, 0, 0, 0, 0, 0⟩
    ⟨"-s", 2, "", 0⟩ (by decide)]
  refine ⟨rfl, ?_⟩
  change ¬ ((0 : ℚ) = 0 + 2)
  norm_num

/-- C3 (amended): after every answered turn (correct or incorrect,
directly or after a hint), `total_time` grows by the turn's accumulated
elapsed time and `avg_time` is recomputed as `total_time / attempts` with
the turn counted; a skipped turn leaves `total_time` and `avg_time`
unchanged (even though it increments `attempts`). -/
theorem turn_time_accounting (item : ZiItem) (prog : ProgressRecord) (ti : TurnInput) :
    ((¬ pyLower (pyStrip ti.inpt) = "-q") → (¬ pyLower (pyStrip ti.inpt) = "-s") →
      (run_quiz_for_item item prog ti).prog.total_time =
          prog.total_time +
            (if pyLower (pyStrip ti.inpt) = "-h" then ti.elapsed + ti.hintElapsed
             else ti.elapsed) ∧
        (run_quiz_for_item item prog ti).prog.attempts = prog.attempts + 1 ∧
        (run_quiz_for_item item prog ti).prog.avg_time =
          (run_quiz_for_item item prog ti).prog.total_time /
            ((run_quiz_for_item item prog ti).prog.attempts : ℚ)) ∧
    (pyLower (pyStrip ti.inpt) = "-s" →
      (run_quiz_for_item item prog ti).prog.total_time = prog.total_time ∧
        (run_quiz_for_item item prog ti).prog.avg_time = prog.avg_time) := by
  constructor
  · intro hq hs
    by_cases hh : pyLower (pyStrip ti.inpt) = "-h"
    · rw [run_hint_eq item prog ti hh, if_pos hh]
      cases hc : check_answer (pyStrip ti.hintInpt) (get_quiz_item_data item).1 with
      | true =>
        rw [answerPhase_correct_eq _ _ _ _ hc]
        refine ⟨rfl, rfl, ?_⟩
        push_cast
        rfl
      | false =>
        rw [answerPhase_incorrect_eq _ _ _ _ hc]
        refine ⟨rfl, rfl, ?_⟩
        push_cast
        rfl
    · rw [run_answer_eq item prog ti hq hs hh, if_neg hh]
      cases hc : check_answer (pyStrip ti.inpt) (get_quiz_item_data item).1 with
      | true =>
        rw [answerPhase_correct_eq _ _ _ _ hc]
        refine ⟨rfl, rfl, ?_⟩
        push_cast
        rfl
      | false =>
        rw [answerPhase_incorrect_eq _ _ _ _ hc]
        refine ⟨rfl, rfl, ?_⟩
        push_cast
        rfl
  · intro hs
    rw [run_skip_eq item prog ti hs]
    exact ⟨rfl, rfl⟩

/-- Witness for the amended C3 on a concrete answered turn. -/
theorem turn_time_accounting_witness :
    ((¬ pyLower (pyStrip "ni3") = "-q") ∧ (¬ pyLower (pyStrip "ni3") = "-s")) ∧
      (run_quiz_for_item ⟨"你", some "you", some "nǐ", some "ni3"⟩ ⟨"你", 10, 0, 0, 0, 0, 0⟩
          ⟨"ni3", 2, "", 0⟩).prog.total_time = 2 ∧
      (run_quiz_for_item ⟨"你", some "you", some "nǐ", some "ni3"⟩ ⟨"你", 10, 0, 0, 0, 0, 0⟩
          ⟨"ni3", 2, "", 0⟩).prog.avg_time = 2 := by
  have h := (turn_time_accounting ⟨"你", some "you", some "nǐ", some "ni3"⟩
      ⟨"你", 10, 0, 0, 0, 0, 0⟩ ⟨"ni3", 2, "", 0⟩).1 (by decide) (by decide)
  refine ⟨⟨by decide, by decide⟩, ?_, ?_⟩
  · rw [h.1, if_neg (by decide)]
    norm_num
  · rw [h.2.2, h.1, if_neg (by decide), h.2.1]
    norm_num

/-! ## The hint transition (C4) -/

/-- C4 counterexample: after a first hint, typing the hint token again is
not handled as a hint — the reserved tokens are not recognized at the
re-prompt.  The turn ends as an incorrect answer and `attempts` is
incremented, where the claim says a second hint would leave `attempts`
untouched and keep the turn open. -/
theorem hint_reprompt_counterexample :
    (run_quiz_for_item ⟨"你", some "you", some "nǐ", some "ni3"⟩ (get_default_progress_item "你")
        ⟨"-h", 1, "-h", 1⟩).result = .incorrect ∧
      ¬ ((run_quiz_for_item ⟨"你", some "you", some "nǐ", some "ni3"⟩
            (get_default_progress_item "你") ⟨"-h", 1, "-h", 1⟩).prog.attempts = 0) := by
  decide

/-- C4 (amended): at most one hint can occur per turn, only as the first
input.  It clamps the weight up by `PENALTY_HINT`, touches neither
`attempts` nor `streak`, and the turn continues with the re-prompted line
— treated purely as an answer, whatever it is — with the elapsed times of
both intervals accumulated. -/
theorem hint_update (item : ZiItem) (prog : ProgressRecord) (ti : TurnInput)
    (h : pyLower (pyStrip ti.inpt) = "-h") :
    run_quiz_for_item item prog ti =
      answerPhase item { prog with weight := min MAX_WEIGHT (prog.weight + PENALTY_HINT) }
        (pyStrip ti.hintInpt) (ti.elapsed + ti.hintElapsed) ∧
      ({ prog with weight := min MAX_WEIGHT (prog.weight + PENALTY_HINT) } :
          ProgressRecord).attempts = prog.attempts ∧
      ({ prog with weight := min MAX_WEIGHT (prog.weight + PENALTY_HINT) } :
          ProgressRecord).streak = prog.streak :=
  ⟨run_hint_eq item prog ti h, rfl, rfl⟩

/-- Witness for the amended C4 on a concrete hinted turn. -/
theorem hint_update_witness :
    (pyLower (pyStrip "-h") = "-h") ∧
      run_quiz_for_item ⟨"你", some "you", some "nǐ", some "ni3"⟩ ⟨"你", 5, 0, 0, 0, 0, 0⟩
          ⟨"-h", 1, "ni3", 1⟩ =
        answerPhase ⟨"你", some "you", some "nǐ", some "ni3"⟩
          ⟨"你", min MAX_WEIGHT (5 + PENALTY_HINT), 0, 0, 0, 0, 0⟩ (pyStrip "ni3") (1 + 1) :=
  ⟨by decide,
    (hint_update ⟨"你", some "you", some "nǐ", some "ni3"⟩ ⟨"你", 5, 0, 0, 0, 0, 0⟩
        ⟨"-h", 1, "ni3", 1⟩ (by decide)).1⟩

/-! ## Empty accepted answers (C10) -/

lemma stripChars_of_all_space (l : List Char) (h : l.all isPySpace = true) :
    stripChars l = [] := by
  unfold stripChars
  have h1 : l.dropWhile isPySpace = [] := by
    rw [List.dropWhile_eq_nil_iff]
    exact fun x hx => List.all_eq_true.mp h x hx
  rw [h1]
  rfl

/-- C10: when both pinyin fields are missing or empty, the accepted-answer
list contains the empty string, and any whitespace-only input line (input
is stripped) is judged a correct answer. -/
theorem blank_answer_accepted (item : ZiItem) (prog : ProgressRecord) (ti : TurnInput)
    (hm : item.pinyin_marks.getD "" = "") (hn : item.pinyin_numbers.getD "" = "")
    (hw : ti.inpt.toList.all isPySpace = true) :
    "" ∈ (get_quiz_item_data item).1 ∧ (run_quiz_for_item item prog ti).result = .correct := by
  have hstrip : pyStrip ti.inpt = "" := by
    unfold pyStrip
    rw [stripChars_of_all_space _ hw]
  have hans : (get_quiz_item_data item).1 = ["", ""] := by
    unfold get_quiz_item_data
    rw [hm, hn]
    rfl
  constructor
  · rw [hans]
    exact List.mem_cons_self _ _
  · have hq : ¬ pyLower (pyStrip ti.inpt) = "-q" := by rw [hstrip]; decide
    have hs : ¬ pyLower (pyStrip ti.inpt) = "-s" := by rw [hstrip]; decide
    have hh : ¬ pyLower (pyStrip ti.inpt) = "-h" := by rw [hstrip]; decide
    have hc : check_answer (pyStrip ti.inpt) (get_quiz_item_data item).1 = true := by
      rw [hstrip, hans]
      decide
    rw [run_answer_eq item prog ti hq hs hh, answerPhase_correct_eq item prog _ _ hc]

/-- Witness for C10: an item with no pinyin data accepts a blank line. -/
theorem blank_answer_accepted_witness :
    ((⟨"章", none, none, none⟩ : ZiItem).pinyin_marks.getD "" = "" ∧
      (⟨"章", none, none, none⟩ : ZiItem).pinyin_numbers.getD "" = "" ∧
      ("   ").toList.all isPySpace = true) ∧
      "" ∈ (get_quiz_item_data ⟨"章", none, none, none⟩).1 ∧
      (run_quiz_for_item ⟨"章", none, none, none⟩ (get_default_progress_item "章")
          ⟨"   ", 2, "", 0⟩).result = .correct :=
  ⟨⟨by decide, by decide, by decide⟩,
    blank_answer_accepted ⟨"章", none, none, none⟩ (get_default_progress_item "章")
      ⟨"   ", 2, "", 0⟩ (by decide) (by decide) (by decide)⟩

/-! ## Progress synchronization (C6) -/

lemma progressLookup_character_aux (c : String) :
    ∀ (ps : List ProgressRecord) (acc : Option ProgressRecord),
      (∀ q, acc = some q → q.character = c) →
      ∀ p, ps.foldl (fun a r => if r.character = c then some r else a) acc = some p →
        p.character = c := by
  intro ps
  induction ps with
  | nil => exact fun acc hacc p hp => hacc p hp
  | cons r ps ih =>
    intro acc hacc p hp
    refine ih _ ?_ p hp
    intro q hq
    have hq2 : (if r.character = c then some r else acc) = some q := hq
    by_cases hr : r.character = c
    · rw [if_pos hr] at hq2
      rw [← Option.some.inj hq2]
      exact hr
    · rw [if_neg hr] at hq2
      exact hacc q hq2

lemma progressLookup_character (ps : List ProgressRecord) (c : String) (p : ProgressRecord)
    (h : progressLookup ps c = some p) : p.character = c :=
  progressLookup_character_aux c ps none (fun q hq => by cases hq) p h

lemma syncRecordFor_character (ps : List ProgressRecord) (item : ZiItem) :
    (syncRecordFor ps item).character = item.character := by
  unfold syncRecordFor
  cases h : progressLookup ps item.character with
  | some p => exact progressLookup_character ps item.character p h
  | none => rfl

lemma sync_filter_id (data : List ZiItem) (ps : List ProgressRecord) :
    load_and_sync_progress data ps = data.map (syncRecordFor ps) := by
  unfold load_and_sync_progress
  rw [List.filter_eq_self]
  intro p hp
  rw [List.mem_map] at hp
  obtain ⟨item, hitem, rfl⟩ := hp
  rw [List.any_eq_true]
  exact ⟨item, hitem, decide_eq_true (syncRecordFor_character ps item).symm⟩

/-- C6: the synchronized progress list is index-aligned 1:1 with the item
list — position `i` holds the stored record for item `i`'s character when
one exists and a fresh default record (weight `MAX_WEIGHT`, zero counters)
otherwise, every kept record's character matches its item, and no record
survives whose character is not in the item list. -/
theorem sync_progress_aligned (data : List ZiItem) (ps : List ProgressRecord) :
    (load_and_sync_progress data ps).length = data.length ∧
      (∀ i : ℕ, (load_and_sync_progress data ps)[i]? = (data[i]?).map (syncRecordFor ps)) ∧
      (∀ item : ZiItem, (syncRecordFor ps item).character = item.character) ∧
      (∀ item : ZiItem, ∀ p, progressLookup ps item.character = some p →
        syncRecordFor ps item = p) ∧
      (∀ item : ZiItem, progressLookup ps item.character = none →
        syncRecordFor ps item = get_default_progress_item item.character) ∧
      (∀ p ∈ load_and_sync_progress data ps, ∃ item ∈ data, p.character = item.character) := by
  have hid := sync_filter_id data ps
  refine ⟨by rw [hid, List.length_map], fun i => by rw [hid, List.getElem?_map],
    syncRecordFor_character ps,
    fun item p h => by unfold syncRecordFor; rw [h],
    fun item h => by unfold syncRecordFor; rw [h],
    ?_⟩
  intro p hp
  rw [hid, List.mem_map] at hp
  obtain ⟨item, hitem, rfl⟩ := hp
  exact ⟨item, hitem, syncRecordFor_character ps item⟩

/-- Witness for C6: the spec's example — items `{A,B,C}`, stored progress
`{A,B,D}` — yields the stored records for `A` and `B`, a fresh default for
`C`, and drops `D`. -/
theorem sync_progress_aligned_witness :
    load_and_sync_progress
        [⟨"A", none, none, none⟩, ⟨"B", none, none, none⟩, ⟨"C", none, none, none⟩]
        [⟨"A", 5, 1, 0, 0, 2, 1⟩, ⟨"B", 3, 0, 0, 0, 4, 2⟩, ⟨"D", 7, 0, 0, 0, 1, 0⟩] =
      [⟨"A", 5, 1, 0, 0, 2, 1⟩, ⟨"B", 3, 0, 0, 0, 4, 2⟩, get_default_progress_item "C"] ∧
      (load_and_sync_progress
          [⟨"A", none, none, none⟩, ⟨"B", none, none, none⟩, ⟨"C", none, none, none⟩]
          [⟨"A", 5, 1, 0, 0, 2, 1⟩, ⟨"B", 3, 0, 0, 0, 4, 2⟩, ⟨"D", 7, 0, 0, 0, 1, 0⟩]).length =
        3 ∧
      ∃ item ∈ ([⟨"A", none, none, none⟩, ⟨"B", none, none, none⟩, ⟨"C", none, none, none⟩] :
          List ZiItem), (get_default_progress_item "C").character = item.character :=
  ⟨by decide,
    (sync_progress_aligned
        [⟨"A", none, none, none⟩, ⟨"B", none, none, none⟩, ⟨"C", none, none, none⟩]
        [⟨"A", 5, 1, 0, 0, 2, 1⟩, ⟨"B", 3, 0, 0, 0, 4, 2⟩, ⟨"D", 7, 0, 0, 0, 1, 0⟩]).1,
    (sync_progress_aligned
        [⟨"A", none, none, none⟩, ⟨"B", none, none, none⟩, ⟨"C", none, none, none⟩]
        [⟨"A", 5, 1, 0, 0, 2, 1⟩, ⟨"B", 3, 0, 0, 0, 4, 2⟩, ⟨"D", 7, 0, 0, 0, 1, 0⟩]).2.2.2.2.2
      (get_default_progress_item "C") (by decide)⟩

/-! ## Sequential (round-robin) selection (C7) -/

lemma seqCursor_eq_mod (n : ℕ) : ∀ k, seqCursor n k = k % n := by
  intro k
  induction k with
  | zero => simp [seqCursor]
  | succ k ih =>
    show (seqCursor n k + 1) % n = (k + 1) % n
    rw [ih]
    exact Nat.ModEq.add_right 1 (Nat.mod_modEq k n)

lemma seqDraw_eq_mod (n k : ℕ) : seqDraw n k = k % n :=
  seqCursor_eq_mod n k

/-- C7: in sequential mode, starting from the cursor reset to 0, the k-th
draw is `k % n` — so the draws go `0, 1, ..., n-1, 0, ...` in index order —
and any `n` consecutive draws repeat no index and reach every index. -/
theorem round_robin_order (n : ℕ) (hn : 0 < n) :
    (∀ k, seqDraw n k = k % n) ∧
      (∀ k, ((List.range n).map (fun j => seqDraw n (k + j))).Nodup ∧
        ∀ i, i < n → i ∈ (List.range n).map (fun j => seqDraw n (k + j))) := by
  refine ⟨fun k => seqDraw_eq_mod n k, fun k => ⟨?_, ?_⟩⟩
  · refine (List.nodup_range n).map_on ?_
    intro j1 hj1 j2 hj2 heq
    rw [List.mem_range] at hj1 hj2
    rw [seqDraw_eq_mod, seqDraw_eq_mod] at heq
    have h2 : j1 ≡ j2 [MOD n] := Nat.ModEq.add_left_cancel' k heq
    have h3 : j1 % n = j2 % n := h2
    rwa [Nat.mod_eq_of_lt hj1, Nat.mod_eq_of_lt hj2] at h3
  · intro i hi
    rw [List.mem_map]
    refine ⟨(n - k % n + i) % n, ?_, ?_⟩
    · rw [List.mem_range]
      exact Nat.mod_lt _ hn
    · rw [seqDraw_eq_mod]
      calc (k + (n - k % n + i) % n) % n
          = (k + (n - k % n + i)) % n := Nat.ModEq.add_left k (Nat.mod_modEq _ n)
        _ = (k % n + (n - k % n + i)) % n :=
            (Nat.ModEq.add_right _ (Nat.mod_modEq k n)).symm
        _ = (n + i) % n := by
            rw [← Nat.add_assoc, Nat.add_sub_cancel' (Nat.le_of_lt (Nat.mod_lt k hn))]
        _ = i % n := Nat.add_mod_left n i
        _ = i := Nat.mod_eq_of_lt hi

/-- Witness for C7 with three items: the draws wrap `0,1,2,0` and the
three consecutive draws starting at position 2 are pairwise distinct. -/
theorem round_robin_order_witness :
    0 < 3 ∧ seqDraw 3 0 = 0 ∧ seqDraw 3 1 = 1 ∧ seqDraw 3 2 = 2 ∧ seqDraw 3 3 = 0 ∧
      ((List.range 3).map (fun j => seqDraw 3 (2 + j))).Nodup := by
  have h := round_robin_order 3 (by decide)
  exact ⟨by decide, h.1 0, h.1 1, h.1 2, h.1 3, (h.2 2).1⟩

/-! ## Weighted selection (C5) -/

lemma cumAt_zero (ws : List ℚ) : cumAt ws 0 = 0 := rfl

lemma cumAt_succ_cons (w : ℚ) (ws : List ℚ) (i : ℕ) :
    cumAt (w :: ws) (i + 1) = w + cumAt ws i := by
  unfold cumAt
  rw [List.take_succ_cons, List.sum_cons]

lemma cumAt_nonneg (ws : List ℚ) (hw : ∀ w ∈ ws, 0 < w) (i : ℕ) : 0 ≤ cumAt ws i := by
  unfold cumAt
  apply List.sum_nonneg
  intro x hx
  exact le_of_lt (hw x (List.take_subset i ws hx))

lemma select_eq_iff (ws : List ℚ) :
    ∀ (x : ℚ) (i : ℕ), (∀ w ∈ ws, 0 < w) → 0 ≤ x → x < ws.sum → i < ws.length →
      (select ws x = i ↔ cumAt ws i ≤ x ∧ x < cumAt ws (i + 1)) := by
  induction ws with
  | nil =>
    intro x i hw hx hxs hi
    exact absurd hi (by simp)
  | cons w ws ih =>
    intro x i hw hx hxs hi
    rw [List.sum_cons] at hxs
    have hws : ∀ u ∈ ws, 0 < u := fun u hu => hw u (List.mem_cons_of_mem w hu)
    cases i with
    | zero =>
      rw [cumAt_zero, cumAt_succ_cons, cumAt_zero, add_zero]
      simp only [select]
      by_cases hxw : x < w
      · rw [if_pos hxw]
        exact ⟨fun _ => ⟨hx, hxw⟩, fun _ => rfl⟩
      · rw [if_neg hxw]
        constructor
        · intro h0
          exact absurd h0 (Nat.succ_ne_zero _)
        · intro hcon
          exact absurd hcon.2 hxw
    | succ j =>
      have hj : j < ws.length := by
        rw [List.length_cons] at hi
        omega
      rw [cumAt_succ_cons, cumAt_succ_cons]
      simp only [select]
      by_cases hxw : x < w
      · rw [if_pos hxw]
        constructor
        · intro h0
          exact absurd h0.symm (Nat.succ_ne_zero _)
        · intro hcon
          have hcum : 0 ≤ cumAt ws j := cumAt_nonneg ws hws j
          have : w ≤ x := by linarith [hcon.1]
          exact absurd hxw (not_lt.mpr this)
      · rw [if_neg hxw]
        have hwx : w ≤ x := not_lt.mp hxw
        have h0 : 0 ≤ x - w := by linarith
        have h1 : x - w < ws.sum := by linarith
        have hrec := ih (x - w) j hws h0 h1 hj
        constructor
        · intro h2
          have h3 : select ws (x - w) = j := Nat.succ_injective h2
          have h4 := hrec.mp h3
          exact ⟨by linarith [h4.1], by linarith [h4.2]⟩
        · intro hcon
          have h4 : cumAt ws j ≤ x - w ∧ x - w < cumAt ws (j + 1) :=
            ⟨by linarith [hcon.1], by linarith [hcon.2]⟩
          rw [hrec.mpr h4]

/-- C5: in weighted-random mode with all weights positive, the draw
`random() = r` selects index `i` exactly when `r` falls in the interval
`[cum_i/Σw, cum_(i+1)/Σw)`, whose length is `w_i/Σw` — i.e. the drawn
index is distributed as the weights normalized by their sum. -/
theorem weighted_draw_distribution (progress : List ProgressRecord) (c : ℕ)
    (hw : ∀ p ∈ progress, 0 < p.weight) (i : ℕ) (hi : i < progress.length) :
    (∀ r : ℚ, 0 ≤ r → r < 1 →
      ((get_next_index true progress.length progress
            (r * (progress.map (fun p => p.weight)).sum) c).1 = i ↔
        cumAt (progress.map (fun p => p.weight)) i /
              (progress.map (fun p => p.weight)).sum ≤ r ∧
          r < cumAt (progress.map (fun p => p.weight)) (i + 1) /
              (progress.map (fun p => p.weight)).sum)) ∧
      cumAt (progress.map (fun p => p.weight)) (i + 1) /
            (progress.map (fun p => p.weight)).sum -
          cumAt (progress.map (fun p => p.weight)) i /
            (progress.map (fun p => p.weight)).sum =
        (progress[i]).weight / (progress.map (fun p => p.weight)).sum := by
  have hwpos : ∀ w ∈ progress.map (fun p => p.weight), 0 < w := by
    intro w hw2
    rw [List.mem_map] at hw2
    obtain ⟨p, hp, rfl⟩ := hw2
    exact hw p hp
  have hlen : (progress.map (fun p => p.weight)).length = progress.length :=
    List.length_map _ _
  have hilen : i < (progress.map (fun p => p.weight)).length := by
    rw [hlen]
    exact hi
  have hne : progress.map (fun p => p.weight) ≠ [] := by
    intro h
    rw [h] at hlen
    rw [← hlen] at hi
    exact absurd hi (Nat.not_lt_zero i)
  have hS : 0 < (progress.map (fun p => p.weight)).sum :=
    List.sum_pos _ hwpos hne
  constructor
  · intro r hr0 hr1
    have hx0 : 0 ≤ r * (progress.map (fun p => p.weight)).sum :=
      mul_nonneg hr0 (le_of_lt hS)
    have hx1 : r * (progress.map (fun p => p.weight)).sum <
        (progress.map (fun p => p.weight)).sum :=
      mul_lt_of_lt_one_left hS hr1
    have hsel := select_eq_iff (progress.map (fun p => p.weight))
      (r * (progress.map (fun p => p.weight)).sum) i hwpos hx0 hx1 hilen
    rw [div_le_iff₀ hS, lt_div_iff₀ hS]
    exact hsel
  · have hstep2 : cumAt (progress.map (fun p => p.weight)) (i + 1) =
        cumAt (progress.map (fun p => p.weight)) i + (progress[i]).weight := by
      have hstep := List.sum_take_succ (progress.map (fun p => p.weight)) i hilen
      rw [List.getElem_map] at hstep
      exact hstep
    rw [hstep2, add_div]
    ring

/-- Witness for C5: with weights `1, 2, 3`, the draw `r = 1/3` (so
`x = r * 6 = 2`) lands in `[1/6, 1/2)` and selects index 1. -/
theorem weighted_draw_distribution_witness :
    (∀ p ∈ ([⟨"A", 1, 0, 0, 0, 0, 0⟩, ⟨"B", 2, 0, 0, 0, 0, 0⟩, ⟨"C", 3, 0, 0, 0, 0, 0⟩] :
        List ProgressRecord), 0 < p.weight) ∧
      (get_next_index true 3
          ([⟨"A", 1, 0, 0, 0, 0, 0⟩, ⟨"B", 2, 0, 0, 0, 0, 0⟩, ⟨"C", 3, 0, 0, 0, 0, 0⟩] :
            List ProgressRecord)
          ((1 / 3) *
            (([⟨"A", 1, 0, 0, 0, 0, 0⟩, ⟨"B", 2, 0, 0, 0, 0, 0⟩, ⟨"C", 3, 0, 0, 0, 0, 0⟩] :
              List ProgressRecord).map (fun p => p.weight)).sum)
          0).1 = 1 := by
  have hw : ∀ p ∈ ([⟨"A", 1, 0, 0, 0, 0, 0⟩, ⟨"B", 2, 0, 0, 0, 0, 0⟩,
      ⟨"C", 3, 0, 0, 0, 0, 0⟩] : List ProgressRecord), 0 < p.weight := by
    intro p hp
    simp only [List.mem_cons, List.not_mem_nil, or_false] at hp
    rcases hp with rfl | rfl | rfl <;> norm_num
  refine ⟨hw, ?_⟩
  have h := (weighted_draw_distribution
      ([⟨"A", 1, 0, 0, 0, 0, 0⟩, ⟨"B", 2, 0, 0, 0, 0, 0⟩, ⟨"C", 3, 0, 0, 0, 0, 0⟩] :
        List ProgressRecord) 0 hw 1 (by norm_num)).1 (1 / 3) (by norm_num) (by norm_num)
  apply h.mpr
  constructor <;> norm_num [cumAt]
